import Mathlib

/-!
Shallow embedding of the versioned cache and record-resolution layer of the
AllenSDK behavior project cloud API
(src/allensdk/brain_observatory/behavior/project_apis/data_io/behavior_project_cloud_api.py)
and of the project-table base postprocessing
(src/allensdk/brain_observatory/behavior/behavior_project_cache/tables/project_table.py),
together with theorems checking the natural-language specification against it.
-/

namespace CloudApi

/-- A structured cell value as produced by `pandas.read_csv` plus
`ast.literal_eval` decoding: a raw string, an integer, or a decoded
Python list. -/
inductive CellVal where
  | str : String → CellVal
  | int : Int → CellVal
  | list : List CellVal → CellVal

/-- A dataframe cell: `none` models a pandas null (NaN), `some v` a
non-null value. -/
abbrev Cell := Option CellVal

/-- Whether a value is a raw (still textual) string. -/
def CellVal.isStr : CellVal → Bool
  | .str _ => true
  | _ => false

/-- A column-major dataframe: ordered columns, each a name with its cells. -/
structure DataFrame where
  cols : List (String × List Cell)

/-! ### A model of `ast.literal_eval` (Python standard library, external to
the repository) restricted to the literal forms occurring in the metadata
tables: integers, single-quoted strings, and (nested) lists of these. -/

/-- The single-quote character used by Python list reprs. -/
def quoteChar : Char := Char.ofNat 39

/-- Drop leading spaces. -/
def skipSpaces : List Char → List Char
  | [] => []
  | c :: rest => if c = ' ' then skipSpaces rest else c :: rest

/-- Scan the body of a single-quoted string up to the closing quote. -/
def takeStrBody : List Char → Option (List Char × List Char)
  | [] => none
  | c :: rest =>
    if c = quoteChar then some ([], rest)
    else (takeStrBody rest).map (fun p => (c :: p.1, p.2))

/-- Numeric value of a digit run. -/
def digitsToNat (ds : List Char) : Nat :=
  ds.foldl (fun n c => 10 * n + (c.toNat - 48)) 0

/-- Fuel-indexed parser for one Python literal.  After an item of a list
literal and a comma, the remaining items are parsed by recursing on the
remainder with a reopened bracket, so a single structural recursion on the
fuel suffices. -/
def parseLit : Nat → List Char → Option (CellVal × List Char)
  | 0, _ => none
  | fuel + 1, input =>
    match skipSpaces input with
    | [] => none
    | c :: rest =>
      if c = quoteChar then
        (takeStrBody rest).map (fun p => (CellVal.str (String.mk p.1), p.2))
      else if c = '[' then
        match skipSpaces rest with
        | ']' :: r => some (CellVal.list [], r)
        | rest2 =>
          match parseLit fuel rest2 with
          | none => none
          | some (v, r1) =>
            match skipSpaces r1 with
            | ',' :: r2 =>
              match parseLit fuel ('[' :: r2) with
              | some (CellVal.list vs, r3) => some (CellVal.list (v :: vs), r3)
              | _ => none
            | ']' :: r2 => some (CellVal.list [v], r2)
            | _ => none
      else if c = '-' then
        match rest.span Char.isDigit with
        | ([], _) => none
        | (ds, r) => some (CellVal.int (-(Int.ofNat (digitsToNat ds))), r)
      else if c.isDigit then
        match (c :: rest).span Char.isDigit with
        | (ds, r) => some (CellVal.int (Int.ofNat (digitsToNat ds)), r)
      else none

/-- Model of `ast.literal_eval`: decode the textual encoding of a structured
value; `none` models the `ValueError`/`SyntaxError` raised on malformed
input. -/
def literal_eval (s : String) : Option CellVal :=
  match parseLit (2 * s.length + 2) s.data with
  | some (v, rest) => if skipSpaces rest = [] then some v else none
  | none => none

/-! ### `literal_col_eval` (behavior_project_cloud_api.py lines 82-95) -/

/-- The default structured-column names of `literal_col_eval`. -/
def structuredColumns : List String :=
  ["ophys_experiment_id", "ophys_container_id", "driver_line"]

/-- The `converter` closure of `literal_col_eval` lifted to nullable cells:
the pandas `notnull` mask leaves null cells untouched, a string cell is
decoded with `ast.literal_eval` (failure is fatal), and any other cell is
returned unchanged. -/
def convertCell (x : Cell) : Option Cell :=
  match x with
  | none => some none
  | some (CellVal.str s) => (literal_eval s).map some
  | some v => some (some v)

/-- Map a fallible function over a list, failing if any element fails
(the effect of a pandas `.apply` whose function can raise). -/
def listMapOpt {α β : Type} (f : α → Option β) : List α → Option (List β)
  | [] => some []
  | a :: as =>
    match f a, listMapOpt f as with
    | some b, some bs => some (b :: bs)
    | _, _ => none

/-- Apply `convertCell` to every cell of one column. -/
def evalCol (cells : List Cell) : Option (List Cell) :=
  listMapOpt convertCell cells

/-- One iteration of the `for column in columns` loop of `literal_col_eval`:
if the dataframe has a column of that name, decode its cells, otherwise
leave the dataframe unchanged. -/
def colEvalStep (df : DataFrame) (c : String) : Option DataFrame :=
  if df.cols.any (fun p => p.fst == c) then
    (listMapOpt (fun p =>
      if p.fst == c then (evalCol p.snd).map (fun cs => (p.fst, cs))
      else some p) df.cols).map DataFrame.mk
  else some df

/-- `literal_col_eval`: decode the configured structured columns of a
dataframe; `none` models a decoding exception (fatal for the load). -/
def literal_col_eval (df : DataFrame)
    (columns : List String := structuredColumns) : Option DataFrame :=
  columns.foldlM colEvalStep df

/-! ### `version_check` (behavior_project_cloud_api.py lines 18-79) -/

/-- A parsed semantic version, modelling `semver.VersionInfo` (external
library) restricted to the `major.minor.patch` form used by the
compatibility table; prerelease/build tags are not modelled. -/
structure SemVer where
  major : Nat
  minor : Nat
  patch : Nat
deriving DecidableEq, Repr

/-- Split a character list on a separator character. -/
def splitOnChar (sep : Char) : List Char → List (List Char)
  | [] => [[]]
  | c :: rest =>
    if c = sep then [] :: splitOnChar sep rest
    else
      match splitOnChar sep rest with
      | [] => [[c]]
      | g :: gs => (c :: g) :: gs

/-- Strict all-digit parse of one numeric version component. -/
def parseNatComponent (ds : List Char) : Option Nat :=
  if ds.length > 0 && ds.all Char.isDigit then some (digitsToNat ds)
  else none

/-- Model of `semver.VersionInfo.parse`; `none` models the `ValueError`
raised on a malformed version string. -/
def parseVersion (s : String) : Option SemVer :=
  match splitOnChar '.' s.data with
  | [a, b, c] =>
    match parseNatComponent a, parseNatComponent b, parseNatComponent c with
    | some x, some y, some z => some ⟨x, y, z⟩
    | _, _, _ => none
  | _ => none

/-- Lexicographic order on versions, as compared by `semver`. -/
def SemVer.lt (a b : SemVer) : Bool :=
  a.major < b.major ||
    (a.major == b.major &&
      (a.minor < b.minor || (a.minor == b.minor && a.patch < b.patch)))

/-- `a >= b` as compared by `semver` (total order, so the negation of `<`). -/
def SemVer.ge (a b : SemVer) : Bool :=
  !(SemVer.lt a b)

/-- One element of the manifest's `data_pipeline` metadata list (its unused
`comment` key is omitted). -/
structure PipelineEntry where
  name : String
  version : String
deriving DecidableEq, Repr

/-- Compatibility configuration: under the `pipeline_versions` key, an
association of a producing-pipeline version with, per consumer name, an
inclusive-minimum / exclusive-maximum pair of client versions. -/
structure Compatibility where
  pipeline_versions : List (String × List (String × String × String))
deriving DecidableEq, Repr

/-- The module-level `COMPATIBILITY` table of
behavior_project_cloud_api.py. -/
def COMPATIBILITY : Compatibility :=
  ⟨[("2.9.0", [("AllenSDK", "2.9.0", "3.0.0")]),
    ("2.10.0", [("AllenSDK", "2.9.0", "3.0.0")])]⟩

/-- The distinct failure modes of `version_check`.  The first three are
raised as `BehaviorCloudCacheVersionException`; `missingConsumerKey` models
the `KeyError` of `version_limits["AllenSDK"]` and `malformedVersion` the
`ValueError` of `semver.VersionInfo.parse` / semver string comparison. -/
inductive VersionError where
  | wrongEntryCount (found : Nat)
  | noCompatibility (pipelineVersion : String)
  | incompatible (smin smax sdkVersion : String)
  | missingConsumerKey
  | malformedVersion
deriving DecidableEq, Repr

/-- The Python exception class corresponding to a `VersionError`. -/
def VersionError.pythonClass : VersionError → String
  | .wrongEntryCount _ => "BehaviorCloudCacheVersionException"
  | .noCompatibility _ => "BehaviorCloudCacheVersionException"
  | .incompatible _ _ _ => "BehaviorCloudCacheVersionException"
  | .missingConsumerKey => "KeyError"
  | .malformedVersion => "ValueError"

/-- `version_check`: find the unique `AllenSDK` entry of the manifest's
pipeline-version list, look its version up in the compatibility table, and
require the running client version to lie in the half-open interval
`[min, max)` registered there. -/
def version_check (pipeline_versions : List PipelineEntry)
    (sdk_version : String)
    (compatibility : Compatibility := COMPATIBILITY) :
    Except VersionError Unit :=
  match pipeline_versions.filter (fun i => "AllenSDK" == i.name) with
  | [entry] =>
    match compatibility.pipeline_versions.lookup entry.version with
    | none => .error (.noCompatibility entry.version)
    | some version_limits =>
      match version_limits.lookup "AllenSDK" with
      | none => .error .missingConsumerKey
      | some (mn, mx) =>
        match parseVersion mn, parseVersion mx with
        | some smin, some smax =>
          match parseVersion sdk_version with
          | some sv =>
            if SemVer.lt sv smin || SemVer.ge sv smax then
              .error (.incompatible mn mx sdk_version)
            else .ok ()
          | none => .error .malformedVersion
        | _, _ => .error .malformedVersion
  | other => .error (.wrongEntryCount other.length)

/-! ### Record lookup and resolution
(`BehaviorProjectCloudApi.get_behavior_session`, lines 165-207, and
`BehaviorProjectCloudApi.get_behavior_ophys_experiment`, lines 209-234) -/

/-- The failure modes of a record lookup.  `runtimeError` is the Python
`RuntimeError` raised when the number of rows matching an identifier is not
one (the offending count is part of its message); the others model the
pandas/Python exceptions of the remaining partial operations. -/
inductive LookupError where
  | undefinedColumn (name : String)
  | runtimeError (table : String) (count : Nat)
  | keyError (name : String)
  | typeError
  | indexError
deriving DecidableEq, Repr

/-- The Python exception class corresponding to a `LookupError`. -/
def LookupError.pythonClass : LookupError → String
  | .undefinedColumn _ => "UndefinedVariableError"
  | .runtimeError _ _ => "RuntimeError"
  | .keyError _ => "KeyError"
  | .typeError => "TypeError"
  | .indexError => "IndexError"

/-- The cells of the dataframe column of the given name, if present. -/
def DataFrame.colOf (df : DataFrame) (c : String) : Option (List Cell) :=
  (df.cols.find? (fun p => p.fst == c)).map Prod.snd

/-- The cell at row index `i` of the column named `c`. -/
def DataFrame.cellAt (df : DataFrame) (c : String) (i : Nat) : Option Cell :=
  (df.colOf c).bind (fun cells => cells.get? i)

/-- Numeric equality of a cell against an integer, as evaluated by a pandas
`query` expression `column == value`: null never compares equal. -/
def cellEqInt (x : Cell) (v : Int) : Bool :=
  match x with
  | some (CellVal.int n) => n == v
  | _ => false

/-- `df.query(f"{c}=={v}")`, returning the indices of the matching rows;
querying a column the dataframe does not have raises. -/
def DataFrame.queryEq (df : DataFrame) (c : String) (v : Int) :
    Except LookupError (List Nat) :=
  match df.colOf c with
  | none => .error (.undefinedColumn c)
  | some cells =>
    .ok ((cells.enum.filter (fun p => cellEqInt p.snd v)).map Prod.fst)

/-- Python `int(x)` on a scalar cell value, as used in
`str(int(row[file_id_column]))`. -/
def toIntCell : CellVal → Option Int
  | .int n => some n
  | .str s => s.toInt?
  | .list _ => none

/-- The tables held by a constructed `BehaviorProjectCloudApi`, together
with the `file_id_column` name supplied by the cache's manifest. -/
structure ApiTables where
  behaviorOnlySessionTable : DataFrame
  experimentTable : DataFrame
  fileIdColumn : String

/-- `get_behavior_session`, returning the string passed to
`cache.download_data` (the resolved file identifier) in place of the loaded
session object: look the id up in the behavior-only session table, require
exactly one matching row, and either use that row's own file id (non-null
cell) or follow the first listed `ophys_experiment_id` into the experiment
table and use that row's file id. -/
def get_behavior_session (st : ApiTables) (behavior_session_id : Int) :
    Except LookupError String := do
  let idxs ← st.behaviorOnlySessionTable.queryEq "behavior_session_id"
      behavior_session_id
  if idxs.length ≠ 1 then
    .error (.runtimeError "behavior_only_session_table" idxs.length)
  else
    match st.behaviorOnlySessionTable.cellAt st.fileIdColumn idxs.headI with
    | none => .error (.keyError st.fileIdColumn)
    | some (some v) =>
      match toIntCell v with
      | some f => .ok (toString f)
      | none => .error .typeError
    | some none =>
      match st.behaviorOnlySessionTable.cellAt "ophys_experiment_id"
          idxs.headI with
      | none => .error (.keyError "ophys_experiment_id")
      | some none => .error .typeError
      | some (some (CellVal.list [])) => .error .indexError
      | some (some (CellVal.list (x :: _))) =>
        match toIntCell x with
        | none => .error .typeError
        | some oeid => do
          let idxs2 ← st.experimentTable.queryEq "ophys_experiment_id" oeid
          if idxs2.length ≠ 1 then .error .typeError
          else
            match st.experimentTable.cellAt st.fileIdColumn idxs2.headI with
            | none => .error (.keyError st.fileIdColumn)
            | some none => .error .typeError
            | some (some w) =>
              match toIntCell w with
              | some f => .ok (toString f)
              | none => .error .typeError
      | some (some _) => .error .typeError

/-- `get_behavior_ophys_experiment`, returning the string passed to
`cache.download_data`: look the id up in the experiment table, require
exactly one matching row, and use that row's file id. -/
def get_behavior_ophys_experiment (st : ApiTables)
    (ophys_experiment_id : Int) : Except LookupError String := do
  let idxs ← st.experimentTable.queryEq "ophys_experiment_id"
      ophys_experiment_id
  if idxs.length ≠ 1 then
    .error (.runtimeError "behavior_ophys_experiment_table" idxs.length)
  else
    match st.experimentTable.cellAt st.fileIdColumn idxs.headI with
    | none => .error (.keyError st.fileIdColumn)
    | some none => .error .typeError
    | some (some v) =>
      match toIntCell v with
      | some f => .ok (toString f)
      | none => .error .typeError

/-! ### Constructor of `BehaviorProjectCloudApi` (lines 113-133) -/

/-- The externally observable effects of `BehaviorProjectCloudApi.__init__`,
in order: a successfully completed version check, and the download/load of
one named metadata table. -/
inductive InitAction where
  | versionCheckOk
  | downloadTable (name : String)
deriving DecidableEq, Repr

/-- The failure modes of `BehaviorProjectCloudApi.__init__` before any
table is loaded.  The first two are raised as `RuntimeError`. -/
inductive InitError where
  | noMetadataFileNames
  | wrongMetadataFileNames
  | versionError (e : VersionError)
deriving DecidableEq, Repr

/-- The Python exception class corresponding to an `InitError`. -/
def InitError.pythonClass : InitError → String
  | .noMetadataFileNames => "RuntimeError"
  | .wrongMetadataFileNames => "RuntimeError"
  | .versionError e => e.pythonClass

/-- The `expected_metadata` set of the constructor. -/
def expected_metadata : List String :=
  ["behavior_session_table", "ophys_session_table", "ophys_experiment_table"]

/-- Python `set(a) == set(b)` on string lists. -/
def sameSet (a b : List String) : Bool :=
  a.all (fun x => b.contains x) && b.all (fun x => a.contains x)

/-- `BehaviorProjectCloudApi.__init__` as a trace semantics: the ordered
list of effects performed before returning or raising, and the error
raised, if any.  The cache's `metadata_file_names` (possibly `None`) and
the manifest's `_data_pipeline` list are the relevant inputs; table
contents are irrelevant to the recorded effects. -/
def initTrace (metadataFileNames : Option (List String))
    (dataPipeline : List PipelineEntry) (sdkVersion : String)
    (skipVersionCheck : Bool := false) : List InitAction × Option InitError :=
  match metadataFileNames with
  | none => ([], some .noMetadataFileNames)
  | some names =>
    if !(sameSet names expected_metadata) then
      ([], some .wrongMetadataFileNames)
    else if !skipVersionCheck then
      match version_check dataPipeline sdkVersion COMPATIBILITY with
      | .error e => ([], some (.versionError e))
      | .ok _ =>
        ([.versionCheckOk,
          .downloadTable "ophys_session_table",
          .downloadTable "behavior_session_table",
          .downloadTable "ophys_experiment_table"], none)
    else
      ([.downloadTable "ophys_session_table",
        .downloadTable "behavior_session_table",
        .downloadTable "ophys_experiment_table"], none)

/-! ### Local artifact cache -/

/-- The persistent state of the local artifact cache: for each file
identifier, the local path of its entry and whether the entry verifies
against its recorded digest. -/
structure CacheState where
  entries : List (String × String × Bool)
deriving DecidableEq, Repr

/-- Modelled from the spec: `S3CloudCache.download_data`
(allensdk.api.cloud_cache.cloud_cache), which is not under src/.  Per the
LocalArtifactCache contract (spec section 4.5): on a cache hit with a
verified entry, return the existing path with no network access; on a miss,
download, verify, and install the artifact at the path the cache maps the
identifier to; a previously cached entry that fails verification is treated
as a miss and re-downloaded, never served.  `pathOf` is the cache's
deterministic mapping of a file identifier to its local path.  The result
is the updated cache state, the returned local path, and the number of
network downloads performed. -/
def download_data (pathOf : String → String) (st : CacheState)
    (file_id : String) : CacheState × String × Nat :=
  match st.entries.lookup file_id with
  | some (p, true) => (st, p, 0)
  | some (_, false) =>
    (⟨st.entries.map (fun e =>
        if e.fst == file_id then (file_id, pathOf file_id, true) else e)⟩,
      pathOf file_id, 1)
  | none =>
    (⟨st.entries ++ [(file_id, pathOf file_id, true)]⟩, pathOf file_id, 1)

end CloudApi

namespace ProjectTableModel

open CloudApi

/-- A project-table row: an association of column names with cells. -/
abbrev Row := List (String × Cell)

/-- The cell of a row in the given column; a missing column reads as
null. -/
def getCol (r : Row) (c : String) : Cell :=
  match r.lookup c with
  | some v => v
  | none => none

/-- Pandas column assignment restricted to one row: replace the cell if the
column exists, otherwise append the new column. -/
def setCol (r : Row) (c : String) (v : Cell) : Row :=
  if r.any (fun p => p.fst == c) then
    r.map (fun p => if p.fst == c then (p.fst, v) else p)
  else r ++ [(c, v)]

/-- `self._df[~self._df.index.duplicated()]` of
`ProjectTable.postprocess_base` (project_table.py line 36): keep each row
whose index value has not occurred earlier.  `seen` is the set of index
values already encountered. -/
def dedupIndexAux (seen : List Int) : List (Int × Row) → List (Int × Row)
  | [] => []
  | r :: rest =>
    if seen.any (fun k => r.fst == k) then dedupIndexAux seen rest
    else r :: dedupIndexAux (r.fst :: seen) rest

/-- Drop the rows whose index value duplicates an earlier row's, keeping
the first occurrence. -/
def dedupIndex (rows : List (Int × Row)) : List (Int × Row) :=
  dedupIndexAux [] rows

/-- `parse_session_number` of `ProjectTable.__add_session_number`
(project_table.py lines 63-69): the number matched by the anchored regex
`OPHYS_(?P<session_number>\d+)`, if any. -/
def parse_session_number (session_type : String) : Option Int :=
  match session_type.data with
  | 'O' :: 'P' :: 'H' :: 'Y' :: 'S' :: '_' :: rest =>
    match rest.span Char.isDigit with
    | ([], _) => none
    | (ds, _) => some (Int.ofNat (digitsToNat ds))
  | _ => none

/-- `ProjectTable.__add_session_number` restricted to one row: rows whose
`session_type` is a non-null string receive a `session_number` cell parsed
from it (null when the regex does not match); other rows are left as the
`.loc` masked assignment leaves them. -/
def addSessionNumber (r : Row) : Row :=
  match getCol r "session_type" with
  | some (CellVal.str s) =>
    setCol r "session_number" ((parse_session_number s).map CellVal.int)
  | _ => r

/-- `ProjectTable.postprocess_base` (project_table.py lines 33-45): drop
duplicated index values, then derive the `reporter_line`, `cre_line` and
`indicator` columns and add the session number.  The three derivation
functions (`BehaviorMetadata.parse_reporter_line`, `parse_cre_line`,
`parse_indicator`) are external per-row string parsers outside this core
(spec section 1) and are taken as parameters. -/
def postprocess_base (parseReporter parseCre parseIndicator : Cell → Cell)
    (rows : List (Int × Row)) : List (Int × Row) :=
  let d0 := dedupIndex rows
  let d1 := d0.map (fun r =>
    (r.fst, setCol r.snd "reporter_line"
      (parseReporter (getCol r.snd "reporter_line"))))
  let d2 := d1.map (fun r =>
    (r.fst, setCol r.snd "cre_line" (parseCre (getCol r.snd "full_genotype"))))
  let d3 := d2.map (fun r =>
    (r.fst, setCol r.snd "indicator"
      (parseIndicator (getCol r.snd "reporter_line"))))
  d3.map (fun r => (r.fst, addSessionNumber r.snd))

end ProjectTableModel

namespace CloudApi

/-! ### Lemmas about `listMapOpt` -/

theorem listMapOpt_eq_some_iff_forall2 {α β : Type} (f : α → Option β) :
    ∀ (xs : List α) (ys : List β),
      listMapOpt f xs = some ys ↔
        List.Forall₂ (fun a b => f a = some b) xs ys := by
  intro xs
  induction xs with
  | nil =>
    intro ys
    constructor
    · intro h
      cases h
      exact List.Forall₂.nil
    · intro h
      cases h
      rfl
  | cons a as ih =>
    intro ys
    constructor
    · intro h
      unfold listMapOpt at h
      cases hfa : f a with
      | none => rw [hfa] at h; cases h
      | some b =>
        rw [hfa] at h
        cases hrest : listMapOpt f as with
        | none => rw [hrest] at h; cases h
        | some bs =>
          rw [hrest] at h
          cases h
          exact List.Forall₂.cons hfa ((ih bs).mp hrest)
    · intro h
      cases h with
      | cons hb hrest =>
        unfold listMapOpt
        rw [hb, (ih _).mpr hrest]

theorem listMapOpt_eq_some_self {α : Type} (f : α → Option α) (xs : List α)
    (h : ∀ a ∈ xs, f a = some a) : listMapOpt f xs = some xs := by
  induction xs with
  | nil => rfl
  | cons a as ih =>
    unfold listMapOpt
    rw [h a (List.mem_cons_self a as),
      ih (fun b hb => h b (List.mem_cons_of_mem a hb))]

theorem listMapOpt_congr {α β : Type} {f g : α → Option β} :
    ∀ {xs : List α}, (∀ a ∈ xs, f a = g a) →
      listMapOpt f xs = listMapOpt g xs := by
  intro xs
  induction xs with
  | nil => intro _; rfl
  | cons a as ih =>
    intro h
    unfold listMapOpt
    rw [h a (List.mem_cons_self a as),
      ih (fun b hb => h b (List.mem_cons_of_mem a hb))]

theorem listMapOpt_fuse {α β γ : Type} (f : α → Option β) (g : β → Option γ) :
    ∀ (xs : List α),
      (listMapOpt f xs).bind (fun ys => listMapOpt g ys) =
        listMapOpt (fun x => (f x).bind g) xs := by
  intro xs
  induction xs with
  | nil => rfl
  | cons a as ih =>
    unfold listMapOpt
    cases hfa : f a with
    | none => rfl
    | some b =>
      cases hrest : listMapOpt f as with
      | none =>
        rw [← ih, hrest]
        simp only [Option.some_bind', Option.none_bind']
        cases hgb : g b <;> rfl
      | some bs =>
        rw [← ih, hrest]
        simp only [Option.some_bind']

/-! ### A columnwise characterization of `literal_col_eval` -/

/-- The effect of `literal_col_eval` on a single column: decode it when its
name is configured, keep it otherwise. -/
def colKernel (columns : List String) (p : String × List Cell) :
    Option (String × List Cell) :=
  if columns.any (fun c => p.fst == c) then
    (evalCol p.snd).map (fun cs => (p.fst, cs))
  else some p

/-- The configured column names are pairwise distinct. -/
def pairwiseDistinct : List String → Bool
  | [] => true
  | c :: cs => !(cs.any (fun x => c == x)) && pairwiseDistinct cs

theorem any_eq_false_forall {α : Type} (f : α → Bool) :
    ∀ l : List α, l.any f = false → ∀ x ∈ l, f x = false := by
  intro l
  induction l with
  | nil => intro _ x hx; cases hx
  | cons a as ih =>
    intro h x hx
    rw [List.any_cons] at h
    cases hfa : f a with
    | true => rw [hfa] at h; cases h
    | false =>
      rw [hfa] at h
      simp only [Bool.false_or] at h
      cases hx with
      | head => exact hfa
      | tail _ hmem => exact ih h x hmem

theorem any_eq_true_of_mem {α : Type} (f : α → Bool) :
    ∀ (l : List α) (x : α), x ∈ l → f x = true → l.any f = true := by
  intro l
  induction l with
  | nil => intro x hx; cases hx
  | cons a as ih =>
    intro x hx hfx
    rw [List.any_cons]
    cases hx with
    | head => simp [hfx]
    | tail _ hmem => simp [ih x hmem hfx]

theorem colEvalStep_eq_kernel (df : DataFrame) (c : String) :
    colEvalStep df c =
      (listMapOpt (colKernel [c]) df.cols).map DataFrame.mk := by
  unfold colEvalStep
  by_cases hany : (df.cols.any fun p => p.fst == c) = true
  · rw [if_pos hany]
    apply congrArg
    apply listMapOpt_congr
    intro p _
    simp [colKernel]
  · rw [if_neg hany]
    have hfalse : (df.cols.any fun p => p.fst == c) = false := by
      cases h : (df.cols.any fun p => p.fst == c) with
      | true => exact absurd h hany
      | false => rfl
    have hall : ∀ p ∈ df.cols, colKernel [c] p = some p := by
      intro p hp
      have hpc := any_eq_false_forall _ _ hfalse p hp
      simp only [] at hpc
      simp [colKernel, hpc]
    rw [listMapOpt_eq_some_self _ _ hall]
    rfl

theorem colKernel_cons (c : String) (cs : List String)
    (hc : cs.any (fun x => c == x) = false) (p : String × List Cell) :
    (colKernel [c] p).bind (colKernel cs) = colKernel (c :: cs) p := by
  cases hpc : (p.fst == c) with
  | true =>
    have hp : p.fst = c := eq_of_beq hpc
    have hpnotin : p.fst ∉ cs := by
      intro hmem
      have hbeq : (fun x => c == x) p.fst = true := by
        rw [hp]
        exact beq_self_eq_true c
      have := any_eq_true_of_mem _ cs p.fst hmem hbeq
      rw [hc] at this
      cases this
    cases hev : evalCol p.snd with
    | none => simp [colKernel, hpc, hev]
    | some cls => simp [colKernel, hpc, hev, hpnotin]
  | false =>
    have hne : p.fst ≠ c := by
      intro h
      rw [h, beq_self_eq_true] at hpc
      cases hpc
    simp [colKernel, hpc, hne]

theorem literal_col_eval_eq_kernel :
    ∀ (columns : List String), pairwiseDistinct columns = true →
      ∀ df : DataFrame,
        literal_col_eval df columns =
          (listMapOpt (colKernel columns) df.cols).map DataFrame.mk := by
  intro columns
  induction columns with
  | nil =>
    intro _ df
    have hall : ∀ p ∈ df.cols, colKernel [] p = some p := by
      intro p _
      simp [colKernel]
    rw [listMapOpt_eq_some_self _ _ hall]
    rfl
  | cons c cs ih =>
    intro hdist df
    have hc : cs.any (fun x => c == x) = false := by
      unfold pairwiseDistinct at hdist
      cases h : cs.any (fun x => c == x) with
      | true => rw [h] at hdist; cases hdist
      | false => rfl
    have hcs : pairwiseDistinct cs = true := by
      unfold pairwiseDistinct at hdist
      rw [Bool.and_eq_true] at hdist
      exact hdist.2
    have hcomp : listMapOpt (colKernel (c :: cs)) df.cols =
        (listMapOpt (colKernel [c]) df.cols).bind
          (fun ys => listMapOpt (colKernel cs) ys) := by
      rw [listMapOpt_fuse]
      exact (listMapOpt_congr (fun p _ => colKernel_cons c cs hc p)).symm
    have hstep : literal_col_eval df (c :: cs) =
        (colEvalStep df c).bind (fun d => literal_col_eval d cs) := rfl
    rw [hstep, colEvalStep_eq_kernel, hcomp]
    cases h1 : listMapOpt (colKernel [c]) df.cols with
    | none => rfl
    | some ys =>
      simp only [Option.map_some', Option.some_bind']
      exact ih hcs (DataFrame.mk ys)

theorem structuredColumns_distinct : pairwiseDistinct structuredColumns = true := by
  decide

theorem mem_iff_any_beq {α : Type} [BEq α] [LawfulBEq α] (a : α) :
    ∀ l : List α, a ∈ l ↔ l.any (fun x => a == x) = true := by
  intro l
  induction l with
  | nil => simp
  | cons b bs ih =>
    rw [List.any_cons]
    constructor
    · intro hmem
      cases hmem with
      | head => simp [beq_self_eq_true]
      | tail _ hmem => simp [ih.mp hmem]
    · intro h
      cases hab : (a == b) with
      | true =>
        rw [eq_of_beq hab]
        exact List.mem_cons_self b bs
      | false =>
        rw [hab] at h
        simp only [Bool.false_or] at h
        exact List.mem_cons_of_mem b (ih.mpr h)

theorem forall2_mem_right {α β : Type} {R : α → β → Prop} :
    ∀ {xs : List α} {ys : List β}, List.Forall₂ R xs ys →
      ∀ b ∈ ys, ∃ a ∈ xs, R a b := by
  intro xs ys h
  induction h with
  | nil => intro b hb; cases hb
  | cons hr _ ih =>
    intro b hb
    cases hb with
    | head => exact ⟨_, List.mem_cons_self _ _, hr⟩
    | tail _ hmem =>
      obtain ⟨a, ha, har⟩ := ih b hmem
      exact ⟨a, List.mem_cons_of_mem _ ha, har⟩

/-- Unpack `literal_col_eval df = some df'` into the columnwise relation. -/
theorem literal_col_eval_some (df df' : DataFrame)
    (h : literal_col_eval df = some df') :
    List.Forall₂ (fun p q => colKernel structuredColumns p = some q)
      df.cols df'.cols := by
  rw [literal_col_eval_eq_kernel structuredColumns structuredColumns_distinct
    df] at h
  cases hmap : listMapOpt (colKernel structuredColumns) df.cols with
  | none => rw [hmap] at h; cases h
  | some ys =>
    rw [hmap] at h
    simp only [Option.map_some'] at h
    have hdf : df' = DataFrame.mk ys := by
      cases h
      rfl
    rw [hdf]
    exact (listMapOpt_eq_some_iff_forall2 _ df.cols ys).mp hmap

theorem convertCell_none : convertCell none = some none := rfl

theorem convertCell_nonstr (v : CellVal) (h : v.isStr = false) :
    convertCell (some v) = some (some v) := by
  cases v with
  | str s => cases h
  | int n => rfl
  | list xs => rfl

/-- A converted cell whose decoded value is not a raw string is a fixed
point of `convertCell`. -/
theorem convertCell_fix (x y : Cell) (h : convertCell x = some y)
    (hdec : ∀ s, x = some (CellVal.str s) →
      ∀ v, literal_eval s = some v → v.isStr = false) :
    convertCell y = some y := by
  cases x with
  | none =>
    rw [convertCell_none] at h
    cases h
    exact convertCell_none
  | some v =>
    cases hv : v.isStr with
    | false =>
      rw [convertCell_nonstr v hv] at h
      cases h
      exact convertCell_nonstr v hv
    | true =>
      cases v with
      | int n => cases hv
      | list xs => cases hv
      | str s =>
        have hcc : convertCell (some (CellVal.str s)) =
            (literal_eval s).map some := rfl
        rw [hcc] at h
        cases hev : literal_eval s with
        | none => rw [hev] at h; cases h
        | some w =>
          rw [hev] at h
          simp only [Option.map_some'] at h
          cases h
          exact convertCell_nonstr w (hdec s rfl w hev)

/-! ### Concrete tables for the witnesses and counterexamples -/

/-- A one-character string holding a single quote. -/
def quoteStr : String := String.mk [quoteChar]

/-- The raw text of the spec example: a driver-line cell holding the
textual encoding of the one-element list of the string Sst-IRES-Cre. -/
def sstRaw : String := String.join ["[", quoteStr, "Sst-IRES-Cre", quoteStr, "]"]

/-- A metadata table whose `driver_line` column holds the raw text. -/
def sstDf : DataFrame := ⟨[("driver_line", [some (CellVal.str sstRaw)])]⟩

/-- The decoded form of `sstDf`. -/
def sstDfDecoded : DataFrame :=
  ⟨[("driver_line", [some (CellVal.list [CellVal.str "Sst-IRES-Cre"])])]⟩

/-- The raw text of a single-quoted one-character string literal. -/
def c6Raw : String := String.join [quoteStr, "x", quoteStr]

/-- A table whose `driver_line` cell decodes to the raw string `x`. -/
def c6Df : DataFrame := ⟨[("driver_line", [some (CellVal.str c6Raw)])]⟩

/-- `c6Df` after one application of `literal_col_eval`. -/
def c6DfOnce : DataFrame := ⟨[("driver_line", [some (CellVal.str "x")])]⟩

/-- A table with one non-configured column and one configured column whose
cells are null or already structured. -/
def frameDf : DataFrame :=
  ⟨[("other", [some (CellVal.str "x")]),
    ("driver_line", [none, some (CellVal.int 3)])]⟩

/-- C4: for every loaded metadata table, every non-null string cell in the
configured structured columns (`ophys_experiment_id`, `ophys_container_id`,
`driver_line`) is decoded by `ast.literal_eval` into the structured value it
encodes; in particular a `driver_line` cell holding the text
`['Sst-IRES-Cre']` (single-quoted) becomes the one-element list containing
the string `Sst-IRES-Cre`, not the raw text. -/
theorem claim_C4_structured_columns_decoded :
    (∀ df df' : DataFrame, literal_col_eval df = some df' →
      List.Forall₂ (fun p q =>
        p.fst ∈ structuredColumns →
          q.fst = p.fst ∧
          List.Forall₂ (fun x y =>
            ∀ s, x = some (CellVal.str s) →
              ∃ v, literal_eval s = some v ∧ y = some v) p.snd q.snd)
        df.cols df'.cols) ∧
    literal_col_eval sstDf = some sstDfDecoded := by
  constructor
  · intro df df' h
    have hcols := literal_col_eval_some df df' h
    apply List.Forall₂.imp ?_ hcols
    intro p q hk hmem
    have hany : structuredColumns.any (fun c => p.fst == c) = true :=
      (mem_iff_any_beq p.fst structuredColumns).mp hmem
    unfold colKernel at hk
    rw [if_pos hany] at hk
    cases hev : evalCol p.snd with
    | none => rw [hev] at hk; cases hk
    | some cs' =>
      rw [hev] at hk
      simp only [Option.map_some'] at hk
      cases hk
      refine ⟨rfl, ?_⟩
      have hcells := (listMapOpt_eq_some_iff_forall2 convertCell p.snd cs').mp hev
      apply List.Forall₂.imp ?_ hcells
      intro x y hxy s hx
      rw [hx] at hxy
      have hmap : (literal_eval s).map some = some y := hxy
      cases hev2 : literal_eval s with
      | none => rw [hev2] at hmap; cases hmap
      | some v =>
        rw [hev2] at hmap
        simp only [Option.map_some'] at hmap
        exact ⟨v, rfl, Option.some.inj hmap.symm⟩
  · rfl

/-- C4 witness: the general clause applied to the `Sst-IRES-Cre` table. -/
theorem claim_C4_witness :
    List.Forall₂ (fun p q =>
      p.fst ∈ structuredColumns →
        q.fst = p.fst ∧
        List.Forall₂ (fun x y =>
          ∀ s, x = some (CellVal.str s) →
            ∃ v, literal_eval s = some v ∧ y = some v) p.snd q.snd)
      sstDf.cols sstDfDecoded.cols :=
  claim_C4_structured_columns_decoded.1 sstDf sstDfDecoded rfl

/-- C7: `literal_col_eval` leaves every column whose name is not configured
unchanged, and within configured columns leaves every null cell null. -/
theorem claim_C7_frame_condition :
    ∀ df df' : DataFrame, literal_col_eval df = some df' →
      List.Forall₂ (fun p q =>
        (p.fst ∉ structuredColumns → q = p) ∧
        (p.fst ∈ structuredColumns →
          q.fst = p.fst ∧
          List.Forall₂ (fun x y => x = none → y = none) p.snd q.snd))
        df.cols df'.cols := by
  intro df df' h
  have hcols := literal_col_eval_some df df' h
  apply List.Forall₂.imp ?_ hcols
  intro p q hk
  constructor
  · intro hnmem
    have hnot : ¬ (structuredColumns.any (fun c => p.fst == c) = true) := by
      intro hcontra
      exact hnmem ((mem_iff_any_beq p.fst structuredColumns).mpr hcontra)
    unfold colKernel at hk
    rw [if_neg hnot] at hk
    cases hk
    rfl
  · intro hmem
    have hany : structuredColumns.any (fun c => p.fst == c) = true :=
      (mem_iff_any_beq p.fst structuredColumns).mp hmem
    unfold colKernel at hk
    rw [if_pos hany] at hk
    cases hev : evalCol p.snd with
    | none => rw [hev] at hk; cases hk
    | some cs' =>
      rw [hev] at hk
      simp only [Option.map_some'] at hk
      cases hk
      refine ⟨rfl, ?_⟩
      have hcells := (listMapOpt_eq_some_iff_forall2 convertCell p.snd cs').mp hev
      apply List.Forall₂.imp ?_ hcells
      intro x y hxy hx
      rw [hx] at hxy
      rw [convertCell_none] at hxy
      cases hxy
      rfl

/-- C7 witness: the frame condition applied to `frameDf`, which
`literal_col_eval` maps to itself. -/
theorem claim_C7_witness :
    List.Forall₂ (fun p q =>
      (p.fst ∉ structuredColumns → q = p) ∧
      (p.fst ∈ structuredColumns →
        q.fst = p.fst ∧
        List.Forall₂ (fun x y => x = none → y = none) p.snd q.snd))
      frameDf.cols frameDf.cols :=
  claim_C7_frame_condition frameDf frameDf rfl

/-- C6 counterexample: `literal_col_eval` is not idempotent.  On a table
whose `driver_line` cell holds the text `'x'` (a quoted string literal),
the first pass decodes it to the raw string `x`, and the second pass fails
because `x` is not a Python literal; so applying the decoder twice differs
from applying it once. -/
theorem claim_C6_counterexample :
    ¬ ((literal_col_eval c6Df).bind (fun d => literal_col_eval d) =
        literal_col_eval c6Df) := by
  intro h
  have h1 : (literal_col_eval c6Df).bind (fun d => literal_col_eval d) =
      none := rfl
  have h2 : literal_col_eval c6Df = some c6DfOnce := rfl
  rw [h1, h2] at h
  exact Option.noConfusion h

/-- C6 amended: `literal_col_eval` is idempotent on every table whose
configured-column string cells decode to non-string values (as the released
tables' do, the encoded values being lists); re-running the load then
returns an equivalent table.  Unrestricted idempotence fails
(`claim_C6_counterexample`). -/
theorem claim_C6_amended_idempotent :
    ∀ df : DataFrame,
      (∀ p ∈ df.cols, p.fst ∈ structuredColumns →
        ∀ x ∈ p.snd, ∀ s, x = some (CellVal.str s) →
          ∀ v, literal_eval s = some v → v.isStr = false) →
      (literal_col_eval df).bind (fun d => literal_col_eval d) =
        literal_col_eval df := by
  intro df hdec
  cases h0 : literal_col_eval df with
  | none => rfl
  | some df' =>
    simp only [Option.some_bind']
    have hcols := literal_col_eval_some df df' h0
    have hfix : ∀ q ∈ df'.cols, colKernel structuredColumns q = some q := by
      intro q hq
      obtain ⟨p, hp, hk⟩ := forall2_mem_right hcols q hq
      by_cases hmem : p.fst ∈ structuredColumns
      · have hany : structuredColumns.any (fun c => p.fst == c) = true :=
          (mem_iff_any_beq p.fst structuredColumns).mp hmem
        unfold colKernel at hk
        rw [if_pos hany] at hk
        cases hev : evalCol p.snd with
        | none => rw [hev] at hk; cases hk
        | some cs' =>
          rw [hev] at hk
          simp only [Option.map_some'] at hk
          cases hk
          have hcells :=
            (listMapOpt_eq_some_iff_forall2 convertCell p.snd cs').mp hev
          have hfixcell : ∀ y ∈ cs', convertCell y = some y := by
            intro y hy
            obtain ⟨x, hx, hxy⟩ := forall2_mem_right hcells y hy
            exact convertCell_fix x y hxy
              (fun s hs v hv => hdec p hp hmem x hx s hs v hv)
          have hev2 : evalCol cs' = some cs' :=
            listMapOpt_eq_some_self _ _ hfixcell
          unfold colKernel
          rw [if_pos hany, hev2]
          rfl
      · have hnot : ¬ (structuredColumns.any (fun c => p.fst == c) = true) := by
          intro hcontra
          exact hmem ((mem_iff_any_beq p.fst structuredColumns).mpr hcontra)
        unfold colKernel at hk
        rw [if_neg hnot] at hk
        cases hk
        unfold colKernel
        rw [if_neg hnot]
    rw [literal_col_eval_eq_kernel structuredColumns structuredColumns_distinct
      df']
    rw [listMapOpt_eq_some_self _ _ hfix]
    rfl

/-- C6 amended witness: idempotence at the `Sst-IRES-Cre` table, whose one
string cell decodes to a list. -/
theorem claim_C6_amended_witness :
    (literal_col_eval sstDf).bind (fun d => literal_col_eval d) =
      literal_col_eval sstDf := by
  apply claim_C6_amended_idempotent
  intro p hp hmem x hx s hs v hv
  cases hp with
  | head =>
    cases hx with
    | head =>
      have hsr : s = sstRaw := by
        have := hs
        injection this with h1
        injection h1 with h2
        exact h2.symm
      rw [hsr] at hv
      have hlit : literal_eval sstRaw =
          some (CellVal.list [CellVal.str "Sst-IRES-Cre"]) := rfl
      rw [hlit] at hv
      cases hv
      rfl
    | tail _ hx2 => cases hx2
  | tail _ hp2 => cases hp2

/-- C2: for a pipeline-version list with exactly one `AllenSDK` entry,
`version_check` fails when that entry's version has no registered
compatibility entry, and otherwise fails exactly when the client version is
below the inclusive minimum or at/above the exclusive maximum; for the
registered interval `[2.9.0, 3.0.0)` it rejects clients `2.8.9` and `3.0.0`
and accepts `2.9.5`, raising `BehaviorCloudCacheVersionException`. -/
theorem claim_C2_version_check :
    (∀ (pvs : List PipelineEntry) (e : PipelineEntry) (sdk : String)
        (compat : Compatibility),
      pvs.filter (fun i => "AllenSDK" == i.name) = [e] →
      (compat.pipeline_versions.lookup e.version = none →
        version_check pvs sdk compat = .error (.noCompatibility e.version)) ∧
      (∀ limits mn mx smin smax sv,
        compat.pipeline_versions.lookup e.version = some limits →
        limits.lookup "AllenSDK" = some (mn, mx) →
        parseVersion mn = some smin → parseVersion mx = some smax →
        parseVersion sdk = some sv →
        version_check pvs sdk compat =
          (if SemVer.lt sv smin || SemVer.ge sv smax then
            .error (.incompatible mn mx sdk) else .ok ()))) ∧
    version_check [⟨"AllenSDK", "2.9.0"⟩] "2.8.9" =
      .error (.incompatible "2.9.0" "3.0.0" "2.8.9") ∧
    version_check [⟨"AllenSDK", "2.9.0"⟩] "3.0.0" =
      .error (.incompatible "2.9.0" "3.0.0" "3.0.0") ∧
    version_check [⟨"AllenSDK", "2.9.0"⟩] "2.9.5" = .ok () ∧
    (VersionError.noCompatibility "2.11.0").pythonClass =
      "BehaviorCloudCacheVersionException" ∧
    (VersionError.incompatible "2.9.0" "3.0.0" "2.8.9").pythonClass =
      "BehaviorCloudCacheVersionException" := by
  refine ⟨?_, rfl, rfl, rfl, rfl, rfl⟩
  intro pvs e sdk compat hfilter
  constructor
  · intro hlook
    unfold version_check
    rw [hfilter]
    simp only [hlook]
  · intro limits mn mx smin smax sv h1 h2 h3 h4 h5
    unfold version_check
    rw [hfilter]
    simp only [h1, h2, h3, h4, h5]

/-- C2 witness: the unregistered-version clause at a concrete manifest. -/
theorem claim_C2_witness :
    version_check [⟨"AllenSDK", "2.11.0"⟩] "2.9.5" =
      .error (.noCompatibility "2.11.0") :=
  (claim_C2_version_check.1 [⟨"AllenSDK", "2.11.0"⟩] ⟨"AllenSDK", "2.11.0"⟩
    "2.9.5" COMPATIBILITY rfl).1 rfl

theorem except_ok_bind {ε α β : Type} (a : α) (f : α → Except ε β) :
    (Except.ok a >>= f : Except ε β) = f a := rfl

/-- C1: when a behavior-session id matches exactly one row, a non-null
file-id cell is passed to the cache download directly; a null file-id cell
makes the resolution follow the first listed `ophys_experiment_id` into the
experiment table and pass that row's file id, one level of indirection. -/
theorem claim_C1_resolution :
    ∀ (st : ApiTables) (bsid : Int) (i : Nat),
      st.behaviorOnlySessionTable.queryEq "behavior_session_id" bsid =
        .ok [i] →
      (∀ v f, st.behaviorOnlySessionTable.cellAt st.fileIdColumn i =
          some (some v) → toIntCell v = some f →
        get_behavior_session st bsid = .ok (toString f)) ∧
      (st.behaviorOnlySessionTable.cellAt st.fileIdColumn i = some none →
        ∀ x rest oeid j w g,
          st.behaviorOnlySessionTable.cellAt "ophys_experiment_id" i =
            some (some (CellVal.list (x :: rest))) →
          toIntCell x = some oeid →
          st.experimentTable.queryEq "ophys_experiment_id" oeid = .ok [j] →
          st.experimentTable.cellAt st.fileIdColumn j = some (some w) →
          toIntCell w = some g →
          get_behavior_session st bsid = .ok (toString g)) := by
  intro st bsid i hq
  constructor
  · intro v f hcell hint
    simp [get_behavior_session, except_ok_bind, hq, hcell, hint, List.headI]
  · intro hnull x rest oeid j w g hoecell hx hq2 hwcell hw
    simp [get_behavior_session, except_ok_bind, hq, hnull, hoecell, hx, hq2,
      hwcell, hw, List.headI]

/-- A behavior-only session table with a duplicated and a missing id, used
to exercise the lookup error paths, the direct resolution and the
one-level indirection. -/
def exTables : ApiTables :=
  ⟨⟨[("behavior_session_id",
        [some (CellVal.int 1), some (CellVal.int 1), some (CellVal.int 2),
          some (CellVal.int 3)]),
     ("file_id",
        [some (CellVal.int 10), some (CellVal.int 11), some (CellVal.int 12),
          none]),
     ("ophys_experiment_id",
        [none, none, none, some (CellVal.list [CellVal.int 5, CellVal.int 6])])]⟩,
   ⟨[("ophys_experiment_id", [some (CellVal.int 5), some (CellVal.int 6)]),
     ("file_id", [some (CellVal.int 20), some (CellVal.int 21)])]⟩,
   "file_id"⟩

/-- C1 witness: the direct clause at session 2 (file id 12) and the
indirection clause at session 3 (experiment 5, file id 20). -/
theorem claim_C1_witness :
    get_behavior_session exTables 2 = .ok "12" ∧
    get_behavior_session exTables 3 = .ok "20" :=
  ⟨(claim_C1_resolution exTables 2 2 rfl).1 (CellVal.int 12) 12 rfl rfl,
   (claim_C1_resolution exTables 3 3 rfl).2 rfl (CellVal.int 5) [CellVal.int 6]
     5 0 (CellVal.int 20) 20 rfl rfl rfl rfl rfl⟩

/-- C3 counterexample: zero matching rows and two matching rows do not
raise two distinct error types; both raise the same Python `RuntimeError`
(distinguished only by the count in its message). -/
theorem claim_C3_counterexample :
    get_behavior_session exTables 99 =
      .error (.runtimeError "behavior_only_session_table" 0) ∧
    get_behavior_session exTables 1 =
      .error (.runtimeError "behavior_only_session_table" 2) ∧
    LookupError.pythonClass (.runtimeError "behavior_only_session_table" 0) =
      LookupError.pythonClass (.runtimeError "behavior_only_session_table" 2) :=
  ⟨rfl, rfl, rfl⟩

/-- C3 amended: a record lookup (session or experiment) whose identifier
matches zero rows or more than one row raises an error — a single type,
`RuntimeError`, carrying the match count — rather than silently picking a
row; the types of the two cases are not distinct. -/
theorem claim_C3_amended_lookup_errors :
    ∀ (st : ApiTables) (idv : Int) (idxs : List Nat),
      (st.behaviorOnlySessionTable.queryEq "behavior_session_id" idv =
          .ok idxs →
        idxs.length ≠ 1 →
        get_behavior_session st idv =
          .error (.runtimeError "behavior_only_session_table" idxs.length)) ∧
      (st.experimentTable.queryEq "ophys_experiment_id" idv = .ok idxs →
        idxs.length ≠ 1 →
        get_behavior_ophys_experiment st idv =
          .error
            (.runtimeError "behavior_ophys_experiment_table" idxs.length)) := by
  intro st idv idxs
  constructor
  · intro hq hlen
    simp [get_behavior_session, except_ok_bind, hq, hlen]
  · intro hq hlen
    simp [get_behavior_ophys_experiment, except_ok_bind, hq, hlen]

/-- C3 amended witness: the experiment-table clause at an id with zero
matches. -/
theorem claim_C3_amended_witness :
    get_behavior_ophys_experiment exTables 99 =
      .error (.runtimeError "behavior_ophys_experiment_table" 0) :=
  (claim_C3_amended_lookup_errors exTables 99 []).2 rfl (by decide)

/-- C5: constructing the API performs the version check, to successful
completion, before any metadata table is downloaded or loaded, unless the
caller passes the skip flag; the flag's default value is `false`, so the
check is performed by default. -/
theorem claim_C5_check_before_load :
    ∀ (m : Option (List String)) (p : List PipelineEntry) (v : String),
      initTrace m p v = initTrace m p v false ∧
      (∀ trace err, initTrace m p v true = (trace, err) →
        InitAction.versionCheckOk ∉ trace) ∧
      ∀ trace err, initTrace m p v false = (trace, err) →
        (∀ n, InitAction.downloadTable n ∈ trace →
          trace.head? = some InitAction.versionCheckOk) ∧
        (InitAction.versionCheckOk ∈ trace →
          version_check p v COMPATIBILITY = .ok ()) := by
  intro m p v
  refine ⟨rfl, ?_, ?_⟩
  · intro trace err htr hmem
    cases m with
    | none =>
      rw [show initTrace none p v true =
          ([], some InitError.noMetadataFileNames) from rfl] at htr
      injection htr with h1 _
      rw [← h1] at hmem
      cases hmem
    | some names =>
      by_cases hset : sameSet names expected_metadata = true
      · have : initTrace (some names) p v true =
            ([InitAction.downloadTable "ophys_session_table",
              InitAction.downloadTable "behavior_session_table",
              InitAction.downloadTable "ophys_experiment_table"], none) := by
          simp [initTrace, hset]
        rw [this] at htr
        injection htr with h1 _
        rw [← h1] at hmem
        cases hmem with
        | tail _ hm2 =>
          cases hm2 with
          | tail _ hm3 =>
            cases hm3 with
            | tail _ hm4 => cases hm4
      · have hset2 : sameSet names expected_metadata = false := by
          cases hss : sameSet names expected_metadata with
          | true => exact absurd hss hset
          | false => rfl
        have : initTrace (some names) p v true =
            ([], some InitError.wrongMetadataFileNames) := by
          simp [initTrace, hset2]
        rw [this] at htr
        injection htr with h1 _
        rw [← h1] at hmem
        cases hmem
  intro trace err htr
  cases m with
  | none =>
    rw [show initTrace none p v false =
        ([], some InitError.noMetadataFileNames) from rfl] at htr
    injection htr with h1 _
    constructor
    · intro n hmem
      rw [← h1] at hmem
      cases hmem
    · intro hmem
      rw [← h1] at hmem
      cases hmem
  | some names =>
    by_cases hset : sameSet names expected_metadata = true
    · cases hvc : version_check p v COMPATIBILITY with
      | error e =>
        have : initTrace (some names) p v false =
            ([], some (InitError.versionError e)) := by
          simp [initTrace, hset, hvc]
        rw [this] at htr
        injection htr with h1 _
        constructor
        · intro n hmem
          rw [← h1] at hmem
          cases hmem
        · intro hmem
          rw [← h1] at hmem
          cases hmem
      | ok u =>
        cases u
        have : initTrace (some names) p v false =
            ([InitAction.versionCheckOk,
              InitAction.downloadTable "ophys_session_table",
              InitAction.downloadTable "behavior_session_table",
              InitAction.downloadTable "ophys_experiment_table"], none) := by
          simp [initTrace, hset, hvc]
        rw [this] at htr
        injection htr with h1 _
        constructor
        · intro n _
          rw [← h1]
          rfl
        · intro _
          rfl
    · have hset2 : sameSet names expected_metadata = false := by
        cases hss : sameSet names expected_metadata with
        | true => exact absurd hss hset
        | false => rfl
      have : initTrace (some names) p v false =
          ([], some InitError.wrongMetadataFileNames) := by
        simp [initTrace, hset2]
      rw [this] at htr
      injection htr with h1 _
      constructor
      · intro n hmem
        rw [← h1] at hmem
        cases hmem
      · intro hmem
        rw [← h1] at hmem
        cases hmem

/-- C5 witness: with valid metadata names and a compatible version, the
trace performs the successful version check first, then the three table
downloads. -/
theorem claim_C5_witness :
    ([InitAction.versionCheckOk,
      InitAction.downloadTable "ophys_session_table",
      InitAction.downloadTable "behavior_session_table",
      InitAction.downloadTable "ophys_experiment_table"].head? =
        some InitAction.versionCheckOk) ∧
    version_check [⟨"AllenSDK", "2.9.0"⟩] "2.9.5" COMPATIBILITY = .ok () := by
  have h := (claim_C5_check_before_load (some expected_metadata)
    [⟨"AllenSDK", "2.9.0"⟩] "2.9.5").2.2
    [InitAction.versionCheckOk,
      InitAction.downloadTable "ophys_session_table",
      InitAction.downloadTable "behavior_session_table",
      InitAction.downloadTable "ophys_experiment_table"] none rfl
  exact ⟨h.1 "ophys_session_table" (by simp), h.2 (by simp)⟩

/-- C9: a cache whose manifest has no metadata file names, or whose set of
metadata names is not exactly the three expected tables, makes the
constructor raise `RuntimeError` with an empty effect trace — before the
version check runs and before any table is loaded. -/
theorem claim_C9_expected_metadata :
    ∀ (p : List PipelineEntry) (v : String) (skip : Bool),
      (initTrace none p v skip = ([], some InitError.noMetadataFileNames)) ∧
      (∀ names, sameSet names expected_metadata = false →
        initTrace (some names) p v skip =
          ([], some InitError.wrongMetadataFileNames)) ∧
      InitError.noMetadataFileNames.pythonClass = "RuntimeError" ∧
      InitError.wrongMetadataFileNames.pythonClass = "RuntimeError" := by
  intro p v skip
  refine ⟨rfl, ?_, rfl, rfl⟩
  intro names h
  simp [initTrace, h]

/-- C9 witness: a manifest listing only one of the three tables is
rejected with an empty trace. -/
theorem claim_C9_witness :
    initTrace (some ["behavior_session_table"]) [] "" false =
      ([], some InitError.wrongMetadataFileNames) :=
  (claim_C9_expected_metadata [] "" false).2.1 ["behavior_session_table"] rfl

theorem lookup_append_right {β : Type} (fid : String) (v : β) :
    ∀ l : List (String × β), l.lookup fid = none →
      (l ++ [(fid, v)]).lookup fid = some v := by
  intro l
  induction l with
  | nil =>
    intro _
    simp [List.lookup]
  | cons e es ih =>
    intro h
    obtain ⟨k, w⟩ := e
    cases hk : fid == k with
    | true =>
      unfold List.lookup at h
      rw [hk] at h
      cases h
    | false =>
      unfold List.lookup at h
      rw [hk] at h
      show List.lookup fid ((k, w) :: (es ++ [(fid, v)])) = some v
      unfold List.lookup
      rw [hk]
      exact ih h

theorem lookup_cons_self {β : Type} (k : String) (v : β)
    (es : List (String × β)) : ((k, v) :: es).lookup k = some v := by
  unfold List.lookup
  rw [beq_self_eq_true]

theorem lookup_map_replace (pathOf : String → String) (fid : String) :
    ∀ (l : List (String × String × Bool)) (pb : String × Bool),
      l.lookup fid = some pb →
      (l.map (fun e =>
        if e.fst == fid then (fid, pathOf fid, true) else e)).lookup fid =
        some (pathOf fid, true) := by
  intro l
  induction l with
  | nil =>
    intro pb h
    exact Option.noConfusion h
  | cons e es ih =>
    intro pb h
    obtain ⟨k, w⟩ := e
    cases hk : fid == k with
    | true =>
      have hfk : fid = k := eq_of_beq hk
      subst hfk
      show List.lookup fid
        ((if ((fid, w).fst == fid) = true then (fid, pathOf fid, true)
          else (fid, w)) ::
          es.map (fun e =>
            if (e.fst == fid) = true then (fid, pathOf fid, true) else e)) =
        some (pathOf fid, true)
      rw [if_pos (show ((fid, w).fst == fid) = true from beq_self_eq_true fid)]
      exact lookup_cons_self fid (pathOf fid, true) _
    | false =>
      have hkf : (k == fid) = false := by
        cases hkf : k == fid with
        | false => rfl
        | true =>
          rw [eq_of_beq hkf, beq_self_eq_true] at hk
          cases hk
      unfold List.lookup at h
      rw [hk] at h
      show List.lookup fid
        ((if (k == fid) = true then (fid, pathOf fid, true) else (k, w)) ::
          es.map (fun e =>
            if e.fst == fid then (fid, pathOf fid, true) else e)) =
        some (pathOf fid, true)
      rw [if_neg (by rw [hkf]; exact Bool.false_ne_true)]
      unfold List.lookup
      rw [hk]
      exact ih pb h

/-- C8: `download_data` (spec-modelled LocalArtifactCache, §4.5) is
idempotent: two calls for the same identifier return the same local path,
the second call performs no network download, the two calls together
perform at most one; a verified cache hit returns the existing path with
no network access. -/
theorem claim_C8_download_idempotent :
    ∀ (pathOf : String → String) (st : CacheState) (fid : String),
      ((download_data pathOf (download_data pathOf st fid).1 fid).2.1 =
        (download_data pathOf st fid).2.1) ∧
      ((download_data pathOf (download_data pathOf st fid).1 fid).2.2 = 0) ∧
      ((download_data pathOf st fid).2.2 ≤ 1) ∧
      (∀ p, st.entries.lookup fid = some (p, true) →
        download_data pathOf st fid = (st, p, 0)) := by
  intro pathOf st fid
  have hhit : ∀ (s : CacheState) (p : String),
      s.entries.lookup fid = some (p, true) →
      download_data pathOf s fid = (s, p, 0) := by
    intro s p hl
    unfold download_data
    rw [hl]
  have hkey : (download_data pathOf st fid).1.entries.lookup fid =
      some ((download_data pathOf st fid).2.1, true) := by
    unfold download_data
    cases hl : st.entries.lookup fid with
    | none =>
      simp only []
      exact lookup_append_right fid (pathOf fid, true) st.entries hl
    | some pb =>
      obtain ⟨p, vb⟩ := pb
      cases vb with
      | true => exact hl
      | false =>
        simp only []
        exact lookup_map_replace pathOf fid st.entries (p, false) hl
  have h2 := hhit (download_data pathOf st fid).1
    (download_data pathOf st fid).2.1 hkey
  refine ⟨by rw [h2], by rw [h2], ?_, hhit st⟩
  unfold download_data
  cases hl : st.entries.lookup fid with
  | none => exact Nat.le_refl 1
  | some pb =>
    obtain ⟨p, vb⟩ := pb
    cases vb with
    | true => exact Nat.zero_le 1
    | false => exact Nat.le_refl 1

/-- C8 witness: the verified-hit clause at a one-entry cache. -/
theorem claim_C8_witness :
    download_data (fun s => s) ⟨[("77", "local77", true)]⟩ "77" =
      (⟨[("77", "local77", true)]⟩, "local77", 0) :=
  (claim_C8_download_idempotent (fun s => s) ⟨[("77", "local77", true)]⟩
    "77").2.2.2 "local77" rfl

end CloudApi

namespace ProjectTableModel

open CloudApi

theorem dedupIndexAux_key_not_seen :
    ∀ (l : List (Int × Row)) (seen : List Int) (x : Int × Row),
      x ∈ dedupIndexAux seen l → x.fst ∉ seen := by
  intro l
  induction l with
  | nil => intro seen x hx; cases hx
  | cons r rest ih =>
    intro seen x hx
    unfold dedupIndexAux at hx
    by_cases hc : (seen.any fun k => r.fst == k) = true
    · rw [if_pos hc] at hx
      exact ih seen x hx
    · rw [if_neg hc] at hx
      cases hx with
      | head =>
        intro hmem
        exact hc ((mem_iff_any_beq r.fst seen).mp hmem)
      | tail _ hmem2 =>
        intro hmem
        exact ih (r.fst :: seen) x hmem2 (List.mem_cons_of_mem _ hmem)

theorem dedupIndexAux_keys_nodup :
    ∀ (l : List (Int × Row)) (seen : List Int),
      ((dedupIndexAux seen l).map Prod.fst).Nodup := by
  intro l
  induction l with
  | nil => intro seen; exact List.nodup_nil
  | cons r rest ih =>
    intro seen
    unfold dedupIndexAux
    by_cases hc : (seen.any fun k => r.fst == k) = true
    · rw [if_pos hc]
      exact ih seen
    · rw [if_neg hc]
      rw [List.map_cons]
      refine List.nodup_cons.mpr ⟨?_, ih (r.fst :: seen)⟩
      intro hmem
      obtain ⟨x, hx, hfst⟩ := List.mem_map.mp hmem
      have hns := dedupIndexAux_key_not_seen rest (r.fst :: seen) x hx
      apply hns
      rw [hfst]
      exact List.mem_cons_self r.fst seen

theorem dedupIndexAux_sublist :
    ∀ (l : List (Int × Row)) (seen : List Int),
      List.Sublist (dedupIndexAux seen l) l := by
  intro l
  induction l with
  | nil => intro seen; exact List.Sublist.refl []
  | cons r rest ih =>
    intro seen
    unfold dedupIndexAux
    by_cases hc : (seen.any fun k => r.fst == k) = true
    · rw [if_pos hc]
      exact List.Sublist.cons r (ih seen)
    · rw [if_neg hc]
      exact List.Sublist.cons₂ r (ih (r.fst :: seen))

theorem dedupIndexAux_find :
    ∀ (l : List (Int × Row)) (seen : List Int) (k : Int), k ∉ seen →
      (dedupIndexAux seen l).find? (fun r => r.fst == k) =
        l.find? (fun r => r.fst == k) := by
  intro l
  induction l with
  | nil => intro seen k _; rfl
  | cons r rest ih =>
    intro seen k hk
    unfold dedupIndexAux
    by_cases hc : (seen.any fun q => r.fst == q) = true
    · rw [if_pos hc]
      have hrk : (r.fst == k) = false := by
        cases hrk : r.fst == k with
        | false => rfl
        | true =>
          rw [eq_of_beq hrk] at hc
          exact absurd ((mem_iff_any_beq k seen).mpr hc) hk
      have hneg : ¬ ((fun q : Int × Row => q.fst == k) r = true) := by
        intro hcontra
        have hcontra2 : (r.fst == k) = true := hcontra
        rw [hrk] at hcontra2
        exact Bool.noConfusion hcontra2
      rw [ih seen k hk]
      exact (List.find?_cons_of_neg rest hneg).symm
    · rw [if_neg hc]
      cases hrk : r.fst == k with
      | true =>
        have hpos : (fun q : Int × Row => q.fst == k) r = true := hrk
        rw [@List.find?_cons_of_pos (Int × Row) (fun q : Int × Row => q.fst == k)
            r (dedupIndexAux (r.fst :: seen) rest) hpos,
          @List.find?_cons_of_pos (Int × Row) (fun q : Int × Row => q.fst == k)
            r rest hpos]
      | false =>
        have hneg : ¬ ((fun q : Int × Row => q.fst == k) r = true) := by
          intro hcontra
          have hcontra2 : (r.fst == k) = true := hcontra
          rw [hrk] at hcontra2
          exact Bool.noConfusion hcontra2
        rw [@List.find?_cons_of_neg (Int × Row) (fun q : Int × Row => q.fst == k)
            r (dedupIndexAux (r.fst :: seen) rest) hneg,
          @List.find?_cons_of_neg (Int × Row) (fun q : Int × Row => q.fst == k)
            r rest hneg]
        apply ih
        intro hmem
        cases hmem with
        | head =>
          rw [beq_self_eq_true] at hrk
          exact Bool.noConfusion hrk
        | tail _ hmem2 => exact hk hmem2

/-- C10: after base postprocessing the table's index has no duplicated
values; rows whose index value repeats an earlier row's are silently
dropped (the dedup keeps a sublist of the rows and, per index value, the
first occurrence), and no error path exists for duplicates — the
postprocessing is a total function. -/
theorem claim_C10_index_dedup :
    ∀ (pr pc pi : Cell → Cell) (rows : List (Int × Row)),
      ((postprocess_base pr pc pi rows).map Prod.fst).Nodup ∧
      (postprocess_base pr pc pi rows).map Prod.fst =
        (dedupIndex rows).map Prod.fst ∧
      List.Sublist (dedupIndex rows) rows ∧
      (∀ k : Int, (dedupIndex rows).find? (fun r => r.fst == k) =
        rows.find? (fun r => r.fst == k)) := by
  intro pr pc pi rows
  have hmap : (postprocess_base pr pc pi rows).map Prod.fst =
      (dedupIndex rows).map Prod.fst := by
    unfold postprocess_base
    simp [List.map_map, Function.comp]
  refine ⟨?_, hmap, dedupIndexAux_sublist rows [], ?_⟩
  · rw [hmap]
    exact dedupIndexAux_keys_nodup rows []
  · intro k
    exact dedupIndexAux_find rows [] k (List.not_mem_nil k)

end ProjectTableModel
